import Mathlib

/-!
Verification development for the Document Organizer repository.

The repository is a multilingual document management system: documents are
classified into a fixed category set by a hybrid rule-based / learned
classifier and retrieved through a dual-mode (keyword + semantic) search
engine.  The checkout contains the React frontend (Upload, Search,
Documents, DocumentDetail, Dashboard, Analytics pages) together with the
project documentation; the Python backend that implements the
classification-and-retrieval core is not part of the checkout, so the core
components below are modelled from the specification, as indicated in each
doc comment.  Scores and confidences are embedded as rationals; all
rationals produced by the model are built with mkRat over integer
arithmetic so that every definition evaluates inside the kernel.
-/

namespace DocOrg

/-- Modelled from the spec: the fixed category enumeration used by the
classifier and echoed by the frontend (getCategoryColor in Search.js and
Documents.js, the category select in DocumentDetail.js). -/
inductive Category where
  | demographics
  | housing
  | id_registry
  | land_plans
  | other
deriving DecidableEq

/-- Modelled from the spec (Script Normalizer / Tokenizer): a character is
part of a word if it is Latin alphanumeric or lies in one of the Ge'ez
Unicode blocks (U+1200-U+137F, U+1380-U+139F, U+2D80-U+2DDF). -/
def isWordChar (c : Char) : Bool :=
  c.isAlphanum ||
    (0x1200 ≤ c.val && c.val ≤ 0x137F) ||
    (0x1380 ≤ c.val && c.val ≤ 0x139F) ||
    (0x2D80 ≤ c.val && c.val ≤ 0x2DDF)

/-- Modelled from the spec (Tokenizer): the per-language stop-word set,
kept as one list in the model. -/
def STOP_WORDS : List String :=
  ["the", "a", "an", "and", "or", "of", "is", "in", "to", "for"]

/-- Modelled from the spec (Tokenizer): minimum token length; shorter
tokens are discarded as noise. -/
def MIN_TOKEN_LEN : Nat := 2

/-- Modelled from the spec (Tokenizer): split a character stream into
maximal runs of word characters.  The accumulator holds the current run
in reverse. -/
def splitWords : List Char → List Char → List String
  | [], acc => if acc.isEmpty then [] else [String.mk acc.reverse]
  | c :: cs, acc =>
      if isWordChar c then splitWords cs (c :: acc)
      else (if acc.isEmpty then [] else [String.mk acc.reverse]) ++ splitWords cs []

/-- Modelled from the spec (Normalizer + Tokenizer): segment text on
whitespace/punctuation boundaries, then discard tokens below the minimum
length and stop-words.  Empty input yields the empty token list (a
degenerate-but-valid zero result, not an error).  Deterministic by
construction. -/
def tokenizeText (s : String) : List String :=
  (splitWords s.toList []).filter
    (fun t => MIN_TOKEN_LEN ≤ t.length && !(STOP_WORDS.contains t))

/-- Modelled from the spec (Rule Classifier): a rule set maps each
category to its keyword list; insertion order is preserved and breaks
score ties. -/
abbrev RuleSet := List (Category × List String)

/-- Modelled from the spec (Rule Classifier): keyword specificity is the
inverse of the number of categories whose keyword list contains the
keyword; this is the denominator of that inverse weight. -/
def keywordDen (rs : RuleSet) (kw : String) : Nat :=
  (rs.filter (fun r => r.2.contains kw)).length

/-- Common multiple of a list of weight denominators, used to sum the
inverse weights with integer arithmetic. -/
def weightLcm : List Nat → Nat
  | [] => 1
  | d :: ds => Nat.lcm d (weightLcm ds)

/-- Modelled from the spec (Rule Classifier): per-category match score =
sum of specificity weights of the distinct matched keywords, normalized
to the interval zero-to-one by the best possible score for that category
(the sum over all of its keywords).  Both sums are taken over a common
denominator so the score is a single mkRat of two naturals. -/
def categoryScore (rs : RuleSet) (tokens : List String) (r : Category × List String) : Rat :=
  mkRat
    (((r.2.dedup.filter (fun k => tokens.contains k)).map
        (fun k => weightLcm (r.2.dedup.map (keywordDen rs)) / keywordDen rs k)).sum)
    ((r.2.dedup.map
        (fun k => weightLcm (r.2.dedup.map (keywordDen rs)) / keywordDen rs k)).sum)

/-- Modelled from the spec (Rule Classifier): fold over the rule set
keeping the best (category, score) pair; a strictly greater score is
required to displace the current best, so the category declared earliest
in insertion order wins ties. -/
def bestCategory (rs : RuleSet) (tokens : List String) :
    List (Category × List String) → Category × Rat → Category × Rat
  | [], best => best
  | r :: rest, best =>
      bestCategory rs tokens rest
        (if best.2 < categoryScore rs tokens r then (r.1, categoryScore rs tokens r) else best)

/-- Modelled from the spec (Rule Classifier): the top category and its
normalized score; with no signal the result defaults to (other, 0). -/
def ruleClassify (rs : RuleSet) (tokens : List String) : Category × Rat :=
  bestCategory rs tokens rs (Category.other, 0)

/-- Modelled from the spec (Classification Arbiter, design note on
configuration structs): the two confidence thresholds. -/
structure ArbiterConfig where
  ruleThreshold : Rat
  floorThreshold : Rat
deriving DecidableEq

/-- Modelled from the spec: default thresholds 0.8 (rule) and 0.3 (floor). -/
def defaultConfig : ArbiterConfig :=
  { ruleThreshold := mkRat 4 5, floorThreshold := mkRat 3 10 }

/-- Modelled from the spec (Classification Arbiter decision policy and the
error-handling section): empty tokenized input short-circuits to
(other, 0) with no exception; otherwise the Rule Classifier runs first and
its result is accepted outright when its confidence clears the rule
threshold (the Learned Classifier, passed here as the function ml, is not
consulted); otherwise the learned result is combined with the rule result:
the higher-confidence category wins, the final confidence is the maximum
of the two, and if that maximum is below the floor threshold the category
is forced to other while the confidence keeps the computed value. -/
def classify (cfg : ArbiterConfig) (rs : RuleSet) (ml : String → Category × Rat)
    (text : String) : Category × Rat :=
  if (tokenizeText text).isEmpty then (Category.other, 0)
  else if cfg.ruleThreshold ≤ (ruleClassify rs (tokenizeText text)).2 then
    ruleClassify rs (tokenizeText text)
  else if max (ml text).2 (ruleClassify rs (tokenizeText text)).2 < cfg.floorThreshold then
    (Category.other, max (ml text).2 (ruleClassify rs (tokenizeText text)).2)
  else
    ((if (ruleClassify rs (tokenizeText text)).2 < (ml text).2 then (ml text).1
      else (ruleClassify rs (tokenizeText text)).1),
     max (ml text).2 (ruleClassify rs (tokenizeText text)).2)

/-- Concrete rule set used by witnesses: housing keyed by two keywords. -/
def ruleSet0 : RuleSet := [(Category.housing, ["house", "plot"])]

/-- Concrete learned classifier used by witnesses: constant low-confidence
demographics prediction. -/
def ml0 : String → Category × Rat := fun _ => (Category.demographics, mkRat 1 4)

/-- Concrete learned classifier used by witnesses: constant mid-confidence
demographics prediction that clears the floor threshold. -/
def ml1 : String → Category × Rat := fun _ => (Category.demographics, mkRat 1 2)

/-- Modelled from the spec (Keyword Index): one index entry per document,
holding the document id, its creation timestamp and its tokenized text. -/
structure KwEntry where
  docId : Nat
  created : Nat
  tokens : List String
deriving DecidableEq

/-- Modelled from the spec (Vector Index): one entry per document, holding
the document id, its creation timestamp and its embedding.  Embedding
components are fixed-point integers so every similarity computation is
exact. -/
structure VecEntry where
  docId : Nat
  created : Nat
  vec : List Int
deriving DecidableEq

/-- Modelled from the spec (Keyword Index deletion): remove all postings
for a document id. -/
def kwRemove (idx : List KwEntry) (id : Nat) : List KwEntry :=
  idx.filter (fun e => e.docId != id)

/-- Modelled from the spec (Keyword Index append): idempotent re-insertion
first removes the prior postings for the id, then prepends the fresh
entry (most recent first). -/
def kwIndexDoc (idx : List KwEntry) (id created : Nat) (text : String) : List KwEntry :=
  { docId := id, created := created, tokens := tokenizeText text } :: kwRemove idx id

/-- Modelled from the spec (Vector Index deletion): remove the entry for a
document id. -/
def vecRemove (idx : List VecEntry) (id : Nat) : List VecEntry :=
  idx.filter (fun e => e.docId != id)

/-- Modelled from the spec (Vector Index append): replace any prior entry
for the id with the fresh embedding. -/
def vecIndexDoc (idx : List VecEntry) (id created : Nat) (v : List Int) : List VecEntry :=
  { docId := id, created := created, vec := v } :: vecRemove idx id

/-- Modelled from the spec (Keyword Index query): relevance of a document
for a query = fraction of the distinct query terms the document contains,
a term-overlap score normalized to the unit interval.  The spec leaves the
exact term weighting open (design note), so the model uses the plain
distinct-term overlap. -/
def kwScore (qToks docToks : List String) : Rat :=
  mkRat ((qToks.dedup.filter (fun t => docToks.contains t)).length) qToks.dedup.length

/-- Modelled from the spec (Keyword Index query): return every document
containing at least one query term, paired with its keyword score; ranking
happens in Search Fusion. -/
def kwQuery (idx : List KwEntry) (qToks : List String) : List (KwEntry × Rat) :=
  (idx.filter (fun e => e.tokens.any (fun t => qToks.contains t))).map
    (fun e => (e, kwScore qToks e.tokens))

/-- Squared L2 distance between two fixed-point embeddings, as a natural
number. -/
def sqDistNat (a b : List Int) : Nat :=
  ((a.zipWith (fun x y => (x - y) * (x - y)) b).sum).toNat

/-- A zero embedding carries no signal and is excluded from similarity
ranking. -/
def isZeroVec (v : List Int) : Bool :=
  v.all (fun x => x == 0)

/-- Modelled from the spec (Vector Index query): similarity score is a
monotone decreasing transform of distance into the unit interval, here
one over one plus the squared L2 distance. -/
def similarity (a b : List Int) : Rat :=
  mkRat 1 (1 + sqDistNat a b)

/-- Modelled from the spec (Vector Index query): score every non-zero
document embedding against the query embedding and keep the ones at or
above the similarity threshold; the result count is capped later by the
search limit. -/
def vecQuery (idx : List VecEntry) (q : List Int) (threshold : Rat) :
    List (VecEntry × Rat) :=
  ((idx.filter (fun e => !(isZeroVec e.vec))).map
    (fun e => (e, similarity e.vec q))).filter (fun p => threshold ≤ p.2)

/-- Modelled from the spec (Search Fusion / Search Result): one fused
result row: document id, creation timestamp, final relevance score, and
which retrieval paths matched it. -/
structure FusedHit where
  docId : Nat
  created : Nat
  score : Rat
  kwMatched : Bool
  vecMatched : Bool
deriving DecidableEq

/-- Modelled from the spec (Search Fusion): the small fixed dual-match
bonus rewarding convergent evidence. -/
def dualBonus : Rat := mkRat 1 10

/-- Rational addition computed through mkRat on the numerators and
denominators, so that fused scores evaluate inside the kernel; it agrees
with ordinary rational addition (see qAdd_eq_add). -/
def qAdd (a b : Rat) : Rat :=
  mkRat (a.num * b.den + b.num * a.den) (a.den * b.den)

/-- Modelled from the spec (Search Fusion, merge step): a document found
by both paths gets the maximum of its two scores plus the dual-match
bonus; a document found by one path keeps that path's score.  Match flags
record which paths contributed. -/
def fuse (kw : List (KwEntry × Rat)) (vec : List (VecEntry × Rat)) : List FusedHit :=
  kw.map (fun p =>
    match vec.find? (fun v => v.1.docId == p.1.docId) with
    | some v =>
        { docId := p.1.docId, created := p.1.created,
          score := qAdd (max p.2 v.2) dualBonus, kwMatched := true, vecMatched := true }
    | none =>
        { docId := p.1.docId, created := p.1.created,
          score := p.2, kwMatched := true, vecMatched := false }) ++
  (vec.filter (fun v => !(kw.any (fun p => p.1.docId == v.1.docId)))).map
    (fun v =>
      { docId := v.1.docId, created := v.1.created,
        score := v.2, kwMatched := false, vecMatched := true })

/-- Modelled from the spec (Search Fusion, ordering): rank by final score
descending; on equal scores an exact keyword match outranks a
semantic-only hit (the exact-match weighting of the fusion scenario), and
remaining ties go to the more recent document. -/
def hitLE (a b : FusedHit) : Bool :=
  if a.score = b.score then
    if a.kwMatched = b.kwMatched then decide (b.created ≤ a.created)
    else a.kwMatched
  else decide (b.score < a.score)

/-- The ranking relation on fused hits, as a proposition. -/
def hitRel (a b : FusedHit) : Prop := hitLE a b = true

instance : DecidableRel hitRel := fun a b =>
  inferInstanceAs (Decidable (hitLE a b = true))

instance : IsTotal FusedHit hitRel := by
  constructor
  intro a b
  unfold hitRel hitLE
  by_cases hs : a.score = b.score
  · rw [if_pos hs, if_pos hs.symm]
    by_cases hk : a.kwMatched = b.kwMatched
    · rw [if_pos hk, if_pos hk.symm]
      rcases Nat.le_total b.created a.created with h | h
      · exact Or.inl (decide_eq_true h)
      · exact Or.inr (decide_eq_true h)
    · rw [if_neg hk, if_neg (Ne.symm hk)]
      cases ha : a.kwMatched
      · cases hb : b.kwMatched
        · exact absurd (ha.trans hb.symm) hk
        · exact Or.inr rfl
      · exact Or.inl rfl
  · rw [if_neg hs, if_neg (Ne.symm hs)]
    rcases lt_or_gt_of_ne hs with h | h
    · exact Or.inr (decide_eq_true h)
    · exact Or.inl (decide_eq_true h)

instance : IsTrans FusedHit hitRel := by
  constructor
  intro a b c hab hbc
  unfold hitRel hitLE at hab hbc ⊢
  by_cases hs1 : a.score = b.score
  · by_cases hs2 : b.score = c.score
    · rw [if_pos hs1] at hab
      rw [if_pos hs2] at hbc
      rw [if_pos (hs1.trans hs2)]
      cases ha : a.kwMatched <;> cases hb : b.kwMatched <;> cases hc : c.kwMatched <;>
        simp_all <;> omega
    · rw [if_pos hs1] at hab
      rw [if_neg hs2] at hbc
      have h3 : c.score < a.score :=
        lt_of_lt_of_eq (of_decide_eq_true hbc) hs1.symm
      rw [if_neg (ne_of_gt h3)]
      exact decide_eq_true h3
  · by_cases hs2 : b.score = c.score
    · rw [if_neg hs1] at hab
      have h3 : c.score < a.score :=
        lt_of_eq_of_lt hs2.symm (of_decide_eq_true hab)
      rw [if_neg (ne_of_gt h3)]
      exact decide_eq_true h3
    · rw [if_neg hs1] at hab
      rw [if_neg hs2] at hbc
      have h3 : c.score < a.score :=
        lt_trans (of_decide_eq_true hbc) (of_decide_eq_true hab)
      rw [if_neg (ne_of_gt h3)]
      exact decide_eq_true h3

/-- Modelled from the spec (Search Fusion input): the query mode flags. -/
structure SearchFlags where
  useSemantic : Bool
  simThreshold : Rat
  limit : Nat

/-- Modelled from the spec (Search Fusion): tokenize the query, always run
the keyword query, run the vector query only in semantic mode, merge by
document id, rank, and truncate to the result limit.  Category/tag
post-filters are orthogonal to the fused ranking and are omitted from the
model. -/
def search (kidx : List KwEntry) (vidx : List VecEntry) (queryText : String)
    (queryVec : List Int) (flags : SearchFlags) : List FusedHit :=
  (List.insertionSort hitRel
    (fuse (kwQuery kidx (tokenizeText queryText))
      (if flags.useSemantic then vecQuery vidx queryVec flags.simThreshold else []))).take
    flags.limit

/-- Concrete keyword index used by witnesses: one housing document. -/
def kidx1 : List KwEntry := [{ docId := 1, created := 5, tokens := ["house"] }]

/-- Concrete vector index used by witnesses: the keyword document plus a
second, semantic-only document. -/
def vidx1 : List VecEntry :=
  [{ docId := 1, created := 5, vec := [1] }, { docId := 2, created := 3, vec := [1] }]

/-- Concrete keyword index used by witnesses: two documents with disjoint
vocabulary. -/
def kidx2 : List KwEntry :=
  [{ docId := 1, created := 0, tokens := ["house"] }, { docId := 2, created := 0, tokens := ["plot"] }]

/-- Concrete vector index used by witnesses, matching kidx2. -/
def vidx2 : List VecEntry :=
  [{ docId := 1, created := 0, vec := [1] }, { docId := 2, created := 0, vec := [2] }]

/-- Concrete search flags with semantic mode enabled. -/
def flagsSem : SearchFlags := { useSemantic := true, simThreshold := 0, limit := 10 }

/-- Concrete search flags with semantic mode disabled. -/
def flagsKw : SearchFlags := { useSemantic := false, simThreshold := 0, limit := 10 }

/-- From the source (Upload.js onDrop): the 20MB upload limit in bytes. -/
def MAX_UPLOAD_BYTES : Nat := 20 * 1024 * 1024

/-- A dropped file as the Upload page sees it: name and size in bytes. -/
structure UploadFile where
  name : String
  size : Nat
deriving DecidableEq

/-- From the source (Upload.js onDrop): of the dropped files, keep exactly
the ones within the size limit. -/
def onDropAccepted (accepted : List UploadFile) : List UploadFile :=
  accepted.filter (fun f => f.size ≤ MAX_UPLOAD_BYTES)

/-- From the source (Upload.js onDrop): the error toast shown for an
oversized file. -/
def oversizeToast (f : UploadFile) : String :=
  f.name ++ " is too large. Maximum size is 20MB."

/-- From the source (Upload.js onDrop): toasts for the rejected files. -/
def onDropToasts (accepted : List UploadFile) : List String :=
  (accepted.filter (fun f => !(decide (f.size ≤ MAX_UPLOAD_BYTES)))).map oversizeToast

/-- Events that mutate the Upload page's pending file list. -/
inductive UploadEvent where
  | drop (accepted : List UploadFile)
  | removeOne (f : UploadFile)
  | clearAll

/-- From the source (Upload.js state updates): onDrop appends the accepted
files to the pending list, removeFile filters one file out, Clear All
resets the list. -/
def uploadStep (files : List UploadFile) : UploadEvent → List UploadFile
  | .drop accepted => files ++ onDropAccepted accepted
  | .removeOne f => files.filter (fun g => g != f)
  | .clearAll => []

/-- The pending file list after a sequence of Upload page events, starting
from the empty initial state. -/
def uploadRun (events : List UploadEvent) : List UploadFile :=
  events.foldl uploadStep []

/-- From the source (Search.js searchParams state): the search parameters
the page submits. -/
structure SearchParams where
  query : String
  category : String
  tags : List String
  useSemantic : Bool
  simThreshold : Rat
  limit : Nat
deriving DecidableEq

/-- Models the JavaScript String.prototype.trim call used by
handleSearch: strip whitespace from both ends. -/
def strTrim (s : String) : String :=
  String.mk (((s.toList.dropWhile Char.isWhitespace).reverse.dropWhile
    Char.isWhitespace).reverse)

/-- From the source (Search.js handleSearch guard): search only when the
trimmed query is non-empty or a category filter is set. -/
def shouldSearch (p : SearchParams) : Bool :=
  strTrim p.query != "" || p.category != ""

/-- From the source (Search.js handleSearch): when the guard passes, the
current parameters are prepended to the history keeping at most the four
previous entries (prev.slice(0, 4)) and a request is issued; otherwise
nothing happens.  Returns the new history and whether a request was
issued. -/
def handleSearch (p : SearchParams) (history : List SearchParams) :
    List SearchParams × Bool :=
  if shouldSearch p then (p :: history.take 4, true) else (history, false)

/-- The search history after a sequence of handleSearch submissions,
starting from the empty initial history. -/
def searchRun (ps : List SearchParams) : List SearchParams :=
  ps.foldl (fun h p => (handleSearch p h).1) []

/-- Concrete search parameters used by witnesses: whitespace-only query
and no category filter, so no request is issued. -/
def spBlank : SearchParams :=
  { query := "  ", category := "", tags := [], useSemantic := true,
    simThreshold := mkRat 1 2, limit := 20 }

/-- Concrete search parameters used by witnesses: a real query. -/
def spHouse : SearchParams :=
  { query := "house", category := "", tags := [], useSemantic := true,
    simThreshold := mkRat 1 2, limit := 20 }

/-- From the source (Documents.js): the fixed page size. -/
def PAGE_SIZE : Nat := 12

/-- From the source (Documents.js): totalPages = Math.ceil(total / pageSize). -/
def totalPages (total : Nat) : Nat := (total + PAGE_SIZE - 1) / PAGE_SIZE

/-- The Documents page pagination state: the current page and the total
result count of the current query. -/
structure DocsState where
  currentPage : Nat
  total : Nat
deriving DecidableEq

/-- From the source (Documents.js initial state): currentPage starts at 1
and no results are loaded yet. -/
def docsInit : DocsState := { currentPage := 1, total := 0 }

/-- Events that mutate the Documents page pagination state. -/
inductive DocsEvent where
  | prevPage
  | nextPage
  | filterChange (newTotal : Nat)

/-- From the source (Documents.js): the pagination controls render only
when totalPages exceeds one and each button is disabled at its bound;
Previous clamps with Math.max(1, ...), Next clamps with
Math.min(totalPages, ...), and every filter change resets currentPage to 1
(the new query reports a new total). -/
def docsStep (s : DocsState) : DocsEvent → DocsState
  | .prevPage =>
      if 1 < totalPages s.total ∧ s.currentPage ≠ 1 then
        { s with currentPage := max 1 (s.currentPage - 1) }
      else s
  | .nextPage =>
      if 1 < totalPages s.total ∧ s.currentPage ≠ totalPages s.total then
        { s with currentPage := min (totalPages s.total) (s.currentPage + 1) }
      else s
  | .filterChange newTotal => { currentPage := 1, total := newTotal }

/-- The pagination state after a sequence of Documents page events. -/
def docsRun (events : List DocsEvent) : DocsState :=
  events.foldl docsStep docsInit

end DocOrg

namespace DocOrg

theorem mkRat_nat_nonneg (m t : Nat) : 0 ≤ mkRat (m : Int) t := by
  rw [Rat.mkRat_eq_div]
  positivity

theorem mkRat_nat_le_one (m t : Nat) (h : m ≤ t) : mkRat (m : Int) t ≤ 1 := by
  rw [Rat.mkRat_eq_div]
  rcases Nat.eq_zero_or_pos t with h0 | hpos
  · subst h0
    simp
  · rw [div_le_one (by exact_mod_cast hpos)]
    exact_mod_cast h

theorem categoryScore_nonneg (rs : RuleSet) (tokens : List String)
    (r : Category × List String) : 0 ≤ categoryScore rs tokens r :=
  mkRat_nat_nonneg _ _

theorem categoryScore_le_one (rs : RuleSet) (tokens : List String)
    (r : Category × List String) : categoryScore rs tokens r ≤ 1 := by
  refine mkRat_nat_le_one _ _ ?_
  refine List.Sublist.sum_le_sum ?_ (fun a _ => Nat.zero_le a)
  exact List.Sublist.map _ (List.filter_sublist _)

theorem bestCategory_snd_bounds (rs : RuleSet) (tokens : List String)
    (l : List (Category × List String)) (best : Category × Rat)
    (h0 : 0 ≤ best.2) (h1 : best.2 ≤ 1) :
    0 ≤ (bestCategory rs tokens l best).2 ∧ (bestCategory rs tokens l best).2 ≤ 1 := by
  induction l generalizing best with
  | nil => exact ⟨h0, h1⟩
  | cons r rest ih =>
      unfold bestCategory
      split
      · exact ih _ (categoryScore_nonneg rs tokens r) (categoryScore_le_one rs tokens r)
      · exact ih _ h0 h1

theorem ruleClassify_snd_nonneg (rs : RuleSet) (tokens : List String) :
    0 ≤ (ruleClassify rs tokens).2 :=
  (bestCategory_snd_bounds rs tokens rs (Category.other, 0) le_rfl zero_le_one).1

theorem ruleClassify_snd_le_one (rs : RuleSet) (tokens : List String) :
    (ruleClassify rs tokens).2 ≤ 1 :=
  (bestCategory_snd_bounds rs tokens rs (Category.other, 0) le_rfl zero_le_one).2

theorem categoryScore_nil (rs : RuleSet) (r : Category × List String) :
    categoryScore rs [] r = 0 := by
  unfold categoryScore
  have h : r.2.dedup.filter (fun k => List.contains [] k) = [] := by
    simp [List.filter_eq_nil_iff]
  rw [h]
  simp [Rat.mkRat_eq_div]

theorem bestCategory_nil_tokens (rs : RuleSet) (l : List (Category × List String)) :
    bestCategory rs [] l (Category.other, 0) = (Category.other, 0) := by
  induction l with
  | nil => rfl
  | cons r rest ih =>
      unfold bestCategory
      rw [categoryScore_nil]
      simp [ih]

theorem ruleClassify_nil (rs : RuleSet) : ruleClassify rs [] = (Category.other, 0) :=
  bestCategory_nil_tokens rs rs

theorem category_mem_enum (c : Category) :
    c ∈ [Category.demographics, Category.housing, Category.id_registry,
         Category.land_plans, Category.other] := by
  cases c <;> simp

/-- C1: for every document, after classification the confidence lies in
the closed interval from zero to one and the category is one of the fixed
enumeration, and when the computed confidence does not clear the floor
threshold the category defaults to other.  The learned classifier is
assumed to emit probabilities (values in the unit interval) and the floor
threshold is assumed not to exceed the rule threshold, as with the
defaults 0.3 and 0.8. -/
theorem c1_classification_invariants (cfg : ArbiterConfig) (rs : RuleSet)
    (ml : String → Category × Rat) (text : String)
    (hml : ∀ t, 0 ≤ (ml t).2 ∧ (ml t).2 ≤ 1)
    (hfloor : cfg.floorThreshold ≤ cfg.ruleThreshold) :
    0 ≤ (classify cfg rs ml text).2 ∧ (classify cfg rs ml text).2 ≤ 1 ∧
    (classify cfg rs ml text).1 ∈ [Category.demographics, Category.housing,
      Category.id_registry, Category.land_plans, Category.other] ∧
    ((classify cfg rs ml text).2 < cfg.floorThreshold →
      (classify cfg rs ml text).1 = Category.other) := by
  unfold classify
  split_ifs with h1 h2 h3 h4
  · exact ⟨le_rfl, zero_le_one, by simp, fun _ => rfl⟩
  · refine ⟨ruleClassify_snd_nonneg _ _, ruleClassify_snd_le_one _ _,
      category_mem_enum _, fun hlt => ?_⟩
    exact absurd (lt_of_le_of_lt (le_trans hfloor h2) hlt) (lt_irrefl _)
  · refine ⟨le_max_of_le_right (ruleClassify_snd_nonneg _ _),
      max_le (hml text).2 (ruleClassify_snd_le_one _ _), by simp, fun _ => rfl⟩
  · exact ⟨le_max_of_le_right (ruleClassify_snd_nonneg _ _),
      max_le (hml text).2 (ruleClassify_snd_le_one _ _),
      category_mem_enum _, fun hlt => absurd hlt h3⟩
  · exact ⟨le_max_of_le_right (ruleClassify_snd_nonneg _ _),
      max_le (hml text).2 (ruleClassify_snd_le_one _ _),
      category_mem_enum _, fun hlt => absurd hlt h3⟩

/-- Witness for C1 at a concrete configuration, rule set, learned model
and text. -/
theorem c1_witness :
    0 ≤ (classify defaultConfig ruleSet0 ml0 ("house plot deed")).2 ∧
    (classify defaultConfig ruleSet0 ml0 ("house plot deed")).2 ≤ 1 ∧
    (classify defaultConfig ruleSet0 ml0 ("house plot deed")).1 ∈
      [Category.demographics, Category.housing, Category.id_registry,
       Category.land_plans, Category.other] ∧
    ((classify defaultConfig ruleSet0 ml0 ("house plot deed")).2 <
        defaultConfig.floorThreshold →
      (classify defaultConfig ruleSet0 ml0 ("house plot deed")).1 = Category.other) :=
  c1_classification_invariants defaultConfig ruleSet0 ml0 ("house plot deed")
    (fun _ => ⟨show (0:Rat) ≤ mkRat 1 4 by decide, show (mkRat 1 4 : Rat) ≤ 1 by decide⟩)
    (by decide)

/-- C2: whenever the Rule Classifier's confidence reaches the rule
threshold (assumed positive, as is the default 0.8), the Arbiter returns
exactly the rule result and the outcome does not depend on the learned
classifier, which is therefore never consulted on the fast path. -/
theorem c2_rule_fast_path (cfg : ArbiterConfig) (rs : RuleSet)
    (ml : String → Category × Rat) (text : String)
    (hpos : 0 < cfg.ruleThreshold)
    (hconf : cfg.ruleThreshold ≤ (ruleClassify rs (tokenizeText text)).2) :
    classify cfg rs ml text = ruleClassify rs (tokenizeText text) ∧
    ∀ ml', classify cfg rs ml' text = classify cfg rs ml text := by
  have key : ∀ m : String → Category × Rat,
      classify cfg rs m text = ruleClassify rs (tokenizeText text) := by
    intro m
    have h1 : ¬ ((tokenizeText text).isEmpty = true) := by
      intro h
      rw [List.isEmpty_iff.mp h, ruleClassify_nil] at hconf
      have hconf' : cfg.ruleThreshold ≤ (0 : Rat) := hconf
      exact absurd hpos (not_lt.mpr hconf')
    unfold classify
    rw [if_neg h1, if_pos hconf]
  exact ⟨key ml, fun ml' => (key ml').trans (key ml).symm⟩

/-- Witness for C2: a text whose keywords give the rule classifier full
confidence; the result equals the rule result and swapping the learned
classifier does not change it. -/
theorem c2_witness :
    classify defaultConfig ruleSet0 ml0 ("house plot deed") =
      ruleClassify ruleSet0 (tokenizeText ("house plot deed")) ∧
    classify defaultConfig ruleSet0 ml1 ("house plot deed") =
      classify defaultConfig ruleSet0 ml0 ("house plot deed") :=
  ⟨(c2_rule_fast_path defaultConfig ruleSet0 ml0 ("house plot deed")
      (by decide) (by decide)).1,
   (c2_rule_fast_path defaultConfig ruleSet0 ml0 ("house plot deed")
      (by decide) (by decide)).2 ml1⟩

/-- Counterexample to C3 as stated: on text whose rule confidence is below
the rule threshold, the final result is not always the claimed pair; here
the winning confidence max(1/4, 0) is below the floor threshold 0.3, so
the Arbiter forces the category to other instead of the learned
classifier's demographics. -/
theorem c3_counterexample :
    (ruleClassify ruleSet0 (tokenizeText ("roof"))).2 < defaultConfig.ruleThreshold ∧
    classify defaultConfig ruleSet0 ml0 ("roof") ≠
      ((if (ruleClassify ruleSet0 (tokenizeText ("roof"))).2 < (ml0 ("roof")).2
        then (ml0 ("roof")).1 else (ruleClassify ruleSet0 (tokenizeText ("roof"))).1),
       max (ml0 ("roof")).2 (ruleClassify ruleSet0 (tokenizeText ("roof"))).2) := by
  decide

/-- C3 (amended): on nonempty tokenized input whose rule confidence is
below the rule threshold, and whose winning confidence clears the floor
threshold, the final category is the learned category when its probability
strictly exceeds the rule confidence and the rule category otherwise, and
the final confidence is the maximum of the two. -/
theorem c3_arbiter_combination (cfg : ArbiterConfig) (rs : RuleSet)
    (ml : String → Category × Rat) (text : String)
    (htok : tokenizeText text ≠ [])
    (hrule : (ruleClassify rs (tokenizeText text)).2 < cfg.ruleThreshold)
    (hfloor : cfg.floorThreshold ≤ max (ml text).2 (ruleClassify rs (tokenizeText text)).2) :
    classify cfg rs ml text =
      ((if (ruleClassify rs (tokenizeText text)).2 < (ml text).2 then (ml text).1
        else (ruleClassify rs (tokenizeText text)).1),
       max (ml text).2 (ruleClassify rs (tokenizeText text)).2) := by
  unfold classify
  rw [if_neg (fun h => htok (List.isEmpty_iff.mp h)),
      if_neg (not_le.mpr hrule), if_neg (not_lt.mpr hfloor)]

/-- Witness for the amended C3 at a concrete input where the learned path
wins and clears the floor. -/
theorem c3_witness :
    classify defaultConfig ruleSet0 ml1 ("roof") =
      ((if (ruleClassify ruleSet0 (tokenizeText ("roof"))).2 < (ml1 ("roof")).2
        then (ml1 ("roof")).1 else (ruleClassify ruleSet0 (tokenizeText ("roof"))).1),
       max (ml1 ("roof")).2 (ruleClassify ruleSet0 (tokenizeText ("roof"))).2) :=
  c3_arbiter_combination defaultConfig ruleSet0 ml1 ("roof")
    (by decide) (by decide) (by decide)

/-- C7: classifying empty text returns category other with confidence
exactly zero for every configuration, rule set and learned model; the
tokenizer maps the empty string to the empty token list, a
degenerate-but-valid zero result.  In this total model the absence of an
exception is expressed by classify being a total function. -/
theorem c7_empty_input (cfg : ArbiterConfig) (rs : RuleSet)
    (ml : String → Category × Rat) :
    classify cfg rs ml ("") = (Category.other, 0) ∧ tokenizeText ("") = [] := by
  have htok : tokenizeText ("") = [] := by decide
  constructor
  · unfold classify
    rw [htok]
    rfl
  · exact htok

theorem qAdd_eq_add (a b : Rat) : qAdd a b = a + b :=
  (Rat.add_def' a b).symm

theorem mem_kwRemove_ne (kidx : List KwEntry) (id : Nat) (e : KwEntry)
    (he : e ∈ kwRemove kidx id) : e ∈ kidx ∧ e.docId ≠ id := by
  rcases List.mem_filter.mp he with ⟨hmem, hne⟩
  exact ⟨hmem, by simpa using hne⟩

/-- C5: after remove(id) on the keyword index, no keyword query returns id
among its results; and after removing a document from both indices,
searching for a term that only that document contained yields zero hits. -/
theorem c5_deletion (kidx : List KwEntry) (vidx : List VecEntry) (id : Nat) :
    (∀ qToks : List String,
      id ∉ (kwQuery (kwRemove kidx id) qToks).map (fun p => p.1.docId)) ∧
    (∀ (qv : List Int) (flags : SearchFlags) (t qText : String),
      flags.useSemantic = false →
      tokenizeText qText = [t] →
      (∀ e ∈ kidx, t ∈ e.tokens → e.docId = id) →
      search (kwRemove kidx id) (vecRemove vidx id) qText qv flags = []) := by
  constructor
  · intro qToks hmem
    rcases List.mem_map.mp hmem with ⟨p, hp, hpid⟩
    rcases List.mem_map.mp hp with ⟨e, he, hep⟩
    rcases mem_kwRemove_ne kidx id e (List.mem_filter.mp he).1 with ⟨_, hne⟩
    rw [← hep] at hpid
    exact hne hpid
  · intro qv flags t qText hsem htok huniq
    have hkw : kwQuery (kwRemove kidx id) [t] = [] := by
      unfold kwQuery
      rw [List.filter_eq_nil_iff.mpr ?_]
      · rfl
      intro e he hany
      rcases mem_kwRemove_ne kidx id e he with ⟨hekidx, hne⟩
      rcases List.any_eq_true.mp hany with ⟨tok, htokmem, hcont⟩
      have heq : tok = t := by simpa using hcont
      subst heq
      exact hne (huniq e hekidx htokmem)
    unfold search
    rw [htok, hsem, hkw]
    simp [fuse]

/-- Witness for C5: removing document 1 from both concrete indices, no
keyword query returns it, and searching its unique term yields zero
hits. -/
theorem c5_witness :
    1 ∉ (kwQuery (kwRemove kidx2 1) (["house"])).map (fun p => p.1.docId) ∧
    search (kwRemove kidx2 1) (vecRemove vidx2 1) ("house") [1] flagsKw = [] :=
  ⟨(c5_deletion kidx2 vidx2 1).1 (["house"]),
   (c5_deletion kidx2 vidx2 1).2 [1] flagsKw ("house") ("house")
     rfl (by decide) (by decide)⟩

theorem fuse_vec_nil (kw : List (KwEntry × Rat)) :
    fuse kw [] = kw.map (fun p =>
      { docId := p.1.docId, created := p.1.created, score := p.2,
        kwMatched := true, vecMatched := false }) := by
  unfold fuse
  simp [List.find?]

/-- C6: indexing a document whose text has at least one surviving token,
then searching that same text with semantic mode off and a limit large
enough to hold all candidates, returns the document id among the
results. -/
theorem c6_round_trip (kidx : List KwEntry) (vidx : List VecEntry)
    (id created : Nat) (text : String) (qv : List Int) (flags : SearchFlags)
    (htok : tokenizeText text ≠ [])
    (hsem : flags.useSemantic = false)
    (hlim : kidx.length + 1 ≤ flags.limit) :
    id ∈ (search (kwIndexDoc kidx id created text) (vecIndexDoc vidx id created qv)
      text qv flags).map (fun h => h.docId) := by
  unfold search
  rw [hsem]
  simp only [Bool.false_eq_true, if_false]
  rw [fuse_vec_nil]
  rcases List.exists_mem_of_ne_nil _ htok with ⟨t0, ht0⟩
  have hentry : ({ docId := id, created := created, tokens := tokenizeText text } : KwEntry) ∈
      kwIndexDoc kidx id created text := List.mem_cons_self _ _
  have hcond : (List.any (tokenizeText text) (fun t => (tokenizeText text).contains t)) = true :=
    List.any_eq_true.mpr ⟨t0, ht0, by simpa using ht0⟩
  have hq : ({ docId := id, created := created, tokens := tokenizeText text } : KwEntry) ∈
      (kwIndexDoc kidx id created text).filter
        (fun e => e.tokens.any (fun t => (tokenizeText text).contains t)) :=
    List.mem_filter.mpr ⟨hentry, hcond⟩
  have hhit : FusedHit.mk id created
      (kwScore (tokenizeText text) (tokenizeText text)) true false ∈
      (kwQuery (kwIndexDoc kidx id created text) (tokenizeText text)).map (fun p =>
        ({ docId := p.1.docId, created := p.1.created, score := p.2,
           kwMatched := true, vecMatched := false } : FusedHit)) := by
    unfold kwQuery
    rw [List.map_map]
    exact List.mem_map.mpr ⟨_, hq, rfl⟩
  have hlen : ((kwQuery (kwIndexDoc kidx id created text) (tokenizeText text)).map (fun p =>
      ({ docId := p.1.docId, created := p.1.created, score := p.2,
         kwMatched := true, vecMatched := false } : FusedHit))).length ≤ flags.limit := by
    rw [List.length_map]
    calc (kwQuery (kwIndexDoc kidx id created text) (tokenizeText text)).length
        ≤ (kwIndexDoc kidx id created text).length := by
          unfold kwQuery
          rw [List.length_map]
          exact List.length_filter_le _ _
      _ = (kwRemove kidx id).length + 1 := by
          unfold kwIndexDoc
          rw [List.length_cons]
      _ ≤ kidx.length + 1 := by
          have := List.length_filter_le (fun e => e.docId != id) kidx
          unfold kwRemove
          omega
      _ ≤ flags.limit := hlim
  have hperm := List.perm_insertionSort hitRel
    ((kwQuery (kwIndexDoc kidx id created text) (tokenizeText text)).map (fun p =>
      ({ docId := p.1.docId, created := p.1.created, score := p.2,
         kwMatched := true, vecMatched := false } : FusedHit)))
  rw [List.take_of_length_le (by rw [hperm.length_eq]; exact hlen)]
  exact List.mem_map.mpr ⟨_, hperm.mem_iff.mpr hhit, rfl⟩

/-- Witness for C6 at a concrete document and empty initial indices. -/
theorem c6_witness :
    7 ∈ (search (kwIndexDoc [] 7 0 ("house plot")) (vecIndexDoc [] 7 0 [1])
      ("house plot") [1] flagsKw).map (fun h => h.docId) :=
  c6_round_trip [] [] 7 0 ("house plot") [1] flagsKw (by decide) rfl (by decide)

theorem find?_eq_some_of_nodup_ids (l : List (VecEntry × Rat)) (v : VecEntry × Rat)
    (n : Nat) (hnd : (l.map (fun x => x.1.docId)).Nodup) (hv : v ∈ l)
    (hid : v.1.docId = n) :
    l.find? (fun x => x.1.docId == n) = some v := by
  induction l with
  | nil => cases hv
  | cons x xs ih =>
      rcases List.nodup_cons.mp hnd with ⟨hhead, htail⟩
      rcases List.mem_cons.mp hv with hvx | hvxs
      · subst hvx
        exact List.find?_cons_of_pos _ (by simpa using hid)
      · have hx : ¬ ((x.1.docId == n) = true) := by
          intro h
          apply hhead
          rw [beq_iff_eq] at h
          refine List.mem_map.mpr ⟨v, hvxs, ?_⟩
          show v.1.docId = x.1.docId
          rw [hid, h]
        rw [List.find?_cons_of_neg xs hx]
        exact ih htail hvxs

theorem vecQuery_ids_nodup (vidx : List VecEntry) (q : List Int) (threshold : Rat)
    (h : (vidx.map (fun e => e.docId)).Nodup) :
    ((vecQuery vidx q threshold).map (fun x => x.1.docId)).Nodup := by
  unfold vecQuery
  have hA : ((vidx.filter (fun e => !(isZeroVec e.vec))).map (fun e => e.docId)).Nodup :=
    List.Nodup.sublist (List.Sublist.map _ (List.filter_sublist _)) h
  have hB : (((vidx.filter (fun e => !(isZeroVec e.vec))).map
      (fun e => (e, similarity e.vec q))).map (fun x => x.1.docId)).Nodup := by
    rw [List.map_map]
    exact hA
  exact List.Nodup.sublist (List.Sublist.map _ (List.filter_sublist _)) hB

/-- C4: with semantic mode enabled and distinct document ids in the vector
index, (a) a document returned by both the keyword query and the vector
query is merged into a single fused hit whose final score is the maximum
of the two scores plus the fixed dual-match bonus, and (b) in the final
ranked result list, a keyword-matched hit whose score is at least a
vector-only hit's score never appears after that vector-only hit. -/
theorem c4_fusion_dual_bonus_and_order (kidx : List KwEntry) (vidx : List VecEntry)
    (qText : String) (qv : List Int) (flags : SearchFlags)
    (_hsem : flags.useSemantic = true)
    (hnd : (vidx.map (fun e => e.docId)).Nodup) :
    (∀ p ∈ kwQuery kidx (tokenizeText qText),
      ∀ v ∈ vecQuery vidx qv flags.simThreshold,
      p.1.docId = v.1.docId →
      FusedHit.mk p.1.docId p.1.created (max p.2 v.2 + dualBonus) true true ∈
        fuse (kwQuery kidx (tokenizeText qText)) (vecQuery vidx qv flags.simThreshold)) ∧
    (∀ (i j : Nat) (hi : i < (search kidx vidx qText qv flags).length)
        (hj : j < (search kidx vidx qText qv flags).length),
      ((search kidx vidx qText qv flags).get ⟨i, hi⟩).kwMatched = true →
      ((search kidx vidx qText qv flags).get ⟨j, hj⟩).kwMatched = false →
      ((search kidx vidx qText qv flags).get ⟨j, hj⟩).score ≤
        ((search kidx vidx qText qv flags).get ⟨i, hi⟩).score →
      i ≤ j) := by
  constructor
  · intro p hp v hv hid
    unfold fuse
    refine List.mem_append_left _ ?_
    refine List.mem_map.mpr ⟨p, hp, ?_⟩
    rw [find?_eq_some_of_nodup_ids _ v p.1.docId
      (vecQuery_ids_nodup vidx qv flags.simThreshold hnd) hv hid.symm]
    show FusedHit.mk p.1.docId p.1.created (qAdd (max p.2 v.2) dualBonus) true true =
      FusedHit.mk p.1.docId p.1.created (max p.2 v.2 + dualBonus) true true
    rw [qAdd_eq_add]
  · intro i j hi hj hki hkj hscore
    by_contra hij
    push_neg at hij
    have hsorted := List.sorted_insertionSort hitRel
      (fuse (kwQuery kidx (tokenizeText qText))
        (if flags.useSemantic then vecQuery vidx qv flags.simThreshold else []))
    have hsorted_take : List.Pairwise hitRel (search kidx vidx qText qv flags) :=
      List.Pairwise.sublist (List.take_sublist _ _) hsorted
    have hrel : hitRel ((search kidx vidx qText qv flags).get ⟨j, hj⟩)
        ((search kidx vidx qText qv flags).get ⟨i, hi⟩) :=
      List.pairwise_iff_get.mp hsorted_take ⟨j, hj⟩ ⟨i, hi⟩ hij
    unfold hitRel hitLE at hrel
    by_cases hs : ((search kidx vidx qText qv flags).get ⟨j, hj⟩).score =
        ((search kidx vidx qText qv flags).get ⟨i, hi⟩).score
    · rw [if_pos hs, if_neg (by rw [hkj, hki]; exact Bool.false_ne_true),
        hkj] at hrel
      exact Bool.false_ne_true hrel
    · rw [if_neg hs] at hrel
      exact absurd hscore (not_le.mpr (of_decide_eq_true hrel))

/-- Witness for C4 at concrete indices: one document found by both paths
(it receives max score plus the bonus) and one found only by the vector
path; positions zero and one of the ranked output show the ordering. -/
theorem c4_witness :
    FusedHit.mk 1 5 (max (mkRat 1 1) (mkRat 1 1) + dualBonus) true true ∈
      fuse (kwQuery kidx1 (tokenizeText ("house")))
        (vecQuery vidx1 [1] flagsSem.simThreshold) ∧
    (0 : Nat) ≤ 1 :=
  ⟨(c4_fusion_dual_bonus_and_order kidx1 vidx1 ("house") [1] flagsSem rfl (by decide)).1
      ({ docId := 1, created := 5, tokens := ["house"] }, mkRat 1 1) (by decide)
      ({ docId := 1, created := 5, vec := [1] }, mkRat 1 1) (by decide) rfl,
   (c4_fusion_dual_bonus_and_order kidx1 vidx1 ("house") [1] flagsSem rfl (by decide)).2
      0 1 (by decide) (by decide) (by decide) (by decide) (by decide)⟩

/-- C8: a dropped file enters the pending list if and only if it is within
the 20MB limit; every oversized dropped file produces the error toast; and
after any sequence of Upload page events every file in the pending list
(the list handleUpload would pass to uploadDocuments) is within the
limit. -/
theorem c8_upload_size_limit :
    (∀ (accepted : List UploadFile) (f : UploadFile),
      f ∈ onDropAccepted accepted ↔ f ∈ accepted ∧ f.size ≤ MAX_UPLOAD_BYTES) ∧
    (∀ (accepted : List UploadFile) (f : UploadFile),
      f ∈ accepted → MAX_UPLOAD_BYTES < f.size →
      oversizeToast f ∈ onDropToasts accepted) ∧
    (∀ events : List UploadEvent, ∀ f ∈ uploadRun events,
      f.size ≤ MAX_UPLOAD_BYTES) := by
  refine ⟨?_, ?_, ?_⟩
  · intro accepted f
    constructor
    · intro h
      rcases List.mem_filter.mp h with ⟨hm, hs⟩
      exact ⟨hm, by simpa using hs⟩
    · intro h
      exact List.mem_filter.mpr ⟨h.1, by simpa using h.2⟩
  · intro accepted f hm hs
    refine List.mem_map.mpr ⟨f, List.mem_filter.mpr ⟨hm, ?_⟩, rfl⟩
    simpa using not_le.mpr hs
  · have key : ∀ (events : List UploadEvent) (files : List UploadFile),
        (∀ f ∈ files, f.size ≤ MAX_UPLOAD_BYTES) →
        ∀ f ∈ events.foldl uploadStep files, f.size ≤ MAX_UPLOAD_BYTES := by
      intro events
      induction events with
      | nil => exact fun files h => h
      | cons e rest ih =>
          intro files h
          refine ih (uploadStep files e) ?_
          intro f hf
          cases e with
          | drop accepted =>
              rcases List.mem_append.mp hf with h1 | h2
              · exact h f h1
              · rcases List.mem_filter.mp h2 with ⟨_, hs⟩
                simpa using hs
          | removeOne g => exact h f (List.mem_filter.mp hf).1
          | clearAll => exact absurd hf (List.not_mem_nil f)
    intro events f hf
    exact key events [] (fun f hf => absurd hf (List.not_mem_nil f)) f hf

/-- Witness for C8 at a concrete drop of one small and one oversized file:
the small file is queued, the oversized file's toast appears, and after
the drop event every pending file is within the limit. -/
theorem c8_witness :
    ({ name := "a.pdf", size := 1024 } : UploadFile) ∈
      onDropAccepted [{ name := "a.pdf", size := 1024 },
        { name := "b.pdf", size := 31457280 }] ∧
    oversizeToast { name := "b.pdf", size := 31457280 } ∈
      onDropToasts [{ name := "a.pdf", size := 1024 },
        { name := "b.pdf", size := 31457280 }] ∧
    ({ name := "a.pdf", size := 1024 } : UploadFile).size ≤ MAX_UPLOAD_BYTES :=
  ⟨(c8_upload_size_limit.1 [{ name := "a.pdf", size := 1024 },
      { name := "b.pdf", size := 31457280 }] { name := "a.pdf", size := 1024 }).mpr
      ⟨by decide, by decide⟩,
   c8_upload_size_limit.2.1 [{ name := "a.pdf", size := 1024 },
      { name := "b.pdf", size := 31457280 }] { name := "b.pdf", size := 31457280 }
      (by decide) (by decide),
   c8_upload_size_limit.2.2 [UploadEvent.drop [{ name := "a.pdf", size := 1024 },
      { name := "b.pdf", size := 31457280 }]] { name := "a.pdf", size := 1024 }
      (by decide)⟩

/-- C9: handleSearch issues a request exactly when the trimmed query is
non-empty or a category filter is set; when it fires it prepends the
current parameters while keeping at most the four previous entries; and
consequently the history never exceeds five entries after any sequence of
submissions. -/
theorem c9_search_history :
    (∀ (p : SearchParams) (h : List SearchParams),
      (handleSearch p h).2 = true ↔ (strTrim p.query ≠ "" ∨ p.category ≠ "")) ∧
    (∀ (p : SearchParams) (h : List SearchParams),
      shouldSearch p = true → (handleSearch p h).1 = p :: h.take 4) ∧
    (∀ ps : List SearchParams, (searchRun ps).length ≤ 5) := by
  refine ⟨?_, ?_, ?_⟩
  · intro p h
    unfold handleSearch
    split_ifs with hg <;> unfold shouldSearch at hg <;>
      simp only [bne_iff_ne, Bool.or_eq_true] at hg <;> simp [hg]
  · intro p h hs
    unfold handleSearch
    rw [if_pos hs]
  · have key : ∀ (ps : List SearchParams) (h : List SearchParams), h.length ≤ 5 →
        (ps.foldl (fun h p => (handleSearch p h).1) h).length ≤ 5 := by
      intro ps
      induction ps with
      | nil => exact fun h hh => hh
      | cons p rest ih =>
          intro h hh
          refine ih _ ?_
          show ((handleSearch p h).1).length ≤ 5
          unfold handleSearch
          split_ifs
          · rw [List.length_cons]
            have := List.length_take_le 4 h
            omega
          · exact hh
    intro ps
    exact key ps [] (by simp)

/-- Witness for C9: a whitespace-only query issues no request, a real
query does and prepends itself to the history, and six submissions leave
at most five history entries. -/
theorem c9_witness :
    ((handleSearch spBlank []).2 = true ↔
      (strTrim spBlank.query ≠ "" ∨ spBlank.category ≠ "")) ∧
    (handleSearch spHouse []).1 = [spHouse] ∧
    (searchRun (List.replicate 6 spHouse)).length ≤ 5 :=
  ⟨c9_search_history.1 spBlank [],
   c9_search_history.2.1 spHouse [] (by decide),
   c9_search_history.2.2 (List.replicate 6 spHouse)⟩

/-- Counterexample to C10 as stated: when a filter change yields zero
results, totalPages is zero while currentPage is one, so currentPage does
not lie in the interval from one to totalPages. -/
theorem c10_counterexample :
    (docsRun [DocsEvent.filterChange 0]).currentPage = 1 ∧
    totalPages (docsRun [DocsEvent.filterChange 0]).total = 0 ∧
    ¬ ((docsRun [DocsEvent.filterChange 0]).currentPage ≤
        totalPages (docsRun [DocsEvent.filterChange 0]).total) := by
  decide

/-- C10 (amended): after any sequence of pagination events the current
page stays within the interval from one to max(1, totalPages): Previous
clamps with max 1, Next clamps with min totalPages, the buttons only fire
when the pager renders and is not at the respective bound, and every
filter change resets the page to one. -/
theorem c10_pagination_bounds (events : List DocsEvent) :
    (1 ≤ (docsRun events).currentPage ∧
      (docsRun events).currentPage ≤ max 1 (totalPages (docsRun events).total)) ∧
    (∀ (s : DocsState) (t : Nat),
      docsStep s (DocsEvent.filterChange t) = { currentPage := 1, total := t }) := by
  have key : ∀ (evs : List DocsEvent) (s : DocsState),
      1 ≤ s.currentPage → s.currentPage ≤ max 1 (totalPages s.total) →
      1 ≤ (evs.foldl docsStep s).currentPage ∧
      (evs.foldl docsStep s).currentPage ≤
        max 1 (totalPages ((evs.foldl docsStep s).total)) := by
    intro evs
    induction evs with
    | nil => exact fun s h1 h2 => ⟨h1, h2⟩
    | cons e rest ih =>
        intro s h1 h2
        have hstep : 1 ≤ (docsStep s e).currentPage ∧
            (docsStep s e).currentPage ≤ max 1 (totalPages (docsStep s e).total) := by
          cases e with
          | prevPage =>
              simp only [docsStep]
              split_ifs with hg
              · refine ⟨le_max_left _ _, ?_⟩
                refine max_le (le_max_left _ _) (le_trans ?_ h2)
                omega
              · exact ⟨h1, h2⟩
          | nextPage =>
              simp only [docsStep]
              split_ifs with hg
              · obtain ⟨htp, hne⟩ := hg
                refine ⟨le_min (by omega) (by omega), ?_⟩
                exact le_trans (min_le_left _ _) (le_max_right _ _)
              · exact ⟨h1, h2⟩
          | filterChange t => exact ⟨le_refl 1, le_max_left _ _⟩
        exact ih (docsStep s e) hstep.1 hstep.2
  exact ⟨key events docsInit (by decide) (by decide), fun s t => rfl⟩
